import Mathlib

/-!
# ClassMatch client: session/auth store and API request helper

A shallow embedding of `client/src/context/AuthContext.jsx` and of the
`apiRequest` helper of `client/src/lib/apiIntegration.js`, followed by the
properties proved about them.

Conventions of the embedding

* A JavaScript value is an `Option Json`: `none` is `undefined`, `some v` is a
  plain data value. Objects are association lists in insertion order (a
  repeated key is read as in an object literal: the last entry counts) with
  data-valued properties only (no functions, no `undefined`-valued own
  properties), so `JSON.parse (JSON.stringify v)` is `v` and a stored JSON
  text is represented by the value it parses to.
* Property order is insertion order; the code never observes it (keys that
  look like array indices, which JavaScript lists first, do not occur among
  the properties the code names).
* Strict equality compares primitives by value; two array or object operands
  are taken to be distinct references.
* Numbers are integers.
* A string is the sequence of its UTF-16 code units, as in JavaScript, so that
  indexing (`n[0]`) and unpaired surrogates are those of the language; a
  string literal of this file stands for its UTF-16 encoding (`utf16`).
  Property names are ordinary strings.
* A store operation maps a state to the value returned or thrown and the state
  left behind; `setUser` and the storage writes made before a `throw` stay.
* `sampleUsers` (imported from `../data/sampleData`, a module that is not
  among the sources), the readings of `Date.now()` and the Unicode upper-case
  table behind `String.prototype.toUpperCase` are parameters.
-/

namespace ClassMatch

/-! ## Strings -/

/-- A JavaScript string: the sequence of its UTF-16 code units, each below
`0x10000`. -/
structure JsString where
  units : List Nat
deriving DecidableEq

/-- A code unit in `0xD800..0xDBFF`, the first half of a surrogate pair. -/
def isHighSurrogate (u : Nat) : Bool :=
  0xD800 ≤ u && u ≤ 0xDBFF

/-- A code unit in `0xDC00..0xDFFF`, the second half of a surrogate pair. -/
def isLowSurrogate (u : Nat) : Bool :=
  0xDC00 ≤ u && u ≤ 0xDFFF

/-- The UTF-16 code units of a code point: itself below `0x10000`, a surrogate
pair from there on. -/
def encodeUtf16 (cp : Nat) : List Nat :=
  if cp < 0x10000 then [cp]
  else [0xD800 + (cp - 0x10000) / 0x400, 0xDC00 + (cp - 0x10000) % 0x400]

/-- The code points of a sequence of code units: a high surrogate followed by
a low one is one code point, every other unit, an unpaired surrogate included,
is a code point of its own. -/
def decodeUtf16 : List Nat → List Nat
  | [] => []
  | [u] => [u]
  | u :: v :: rest =>
    if isHighSurrogate u && isLowSurrogate v then
      (0x10000 + (u - 0xD800) * 0x400 + (v - 0xDC00)) :: decodeUtf16 rest
    else u :: decodeUtf16 (v :: rest)

/-- The JavaScript string that a string literal denotes. -/
def utf16 (s : String) : JsString :=
  ⟨(s.data.map (fun c => encodeUtf16 c.toNat)).flatten⟩

/-! ## Values -/

/-- Plain data values of JavaScript. -/
inductive Json where
  | null : Json
  | bool (b : Bool) : Json
  | num (n : Int) : Json
  | str (s : JsString) : Json
  | arr (xs : List Json) : Json
  | obj (fs : List (String × Json)) : Json

/-- The own properties of an object, in insertion order. -/
abbrev Fields := List (String × Json)

/-- What a statement can throw. `error a` is `new Error(a)`: an `Error` whose
message is the string `a` when `a` is a string (and `String(a)` otherwise);
`typeError` and `syntaxError` are the built-in errors raised by a property
access on `null`/`undefined`, a call of a non-function, and `JSON.parse`. -/
inductive Thrown where
  | error (a : Json) : Thrown
  | typeError : Thrown
  | syntaxError : Thrown

/-- A string held by `localStorage`, as far as this code can tell strings
apart: it only tests a stored string for truthiness and hands it to
`JSON.parse`. -/
inductive Stored where
  /-- The empty string: falsy, and not a JSON text. -/
  | empty : Stored
  /-- A non-empty string that `JSON.parse` rejects with a `SyntaxError`. -/
  | malformed : Stored
  /-- A non-empty string that `JSON.parse` reads as `v`; `JSON.stringify v`
  is such a string. -/
  | json (v : Json) : Stored

/-- ToBoolean. -/
def truthy : Option Json → Bool
  | none => false
  | some .null => false
  | some (.bool b) => b
  | some (.num n) => n != 0
  | some (.str s) => !s.units.isEmpty
  | some (.arr _) => true
  | some (.obj _) => true

/-- The expression `a || b` with a defined right operand: `a` if it is truthy,
else `b`. -/
def orElse (a : Option Json) (b : Json) : Json :=
  match a with
  | none => b
  | some v => if truthy (some v) then v else b

/-- Strict equality `a === b`. Primitives compare by value. Arrays and objects
compare by reference; the embedding has no references and takes two such
operands to be distinct objects, as a value read back from storage always is. -/
def strictEq : Option Json → Option Json → Bool
  | none, none => true
  | some .null, some .null => true
  | some (.bool a), some (.bool b) => a == b
  | some (.num a), some (.num b) => a == b
  | some (.str a), some (.str b) => a == b
  | _, _ => false

/-- Property read `o.k` on an object known to be one (a seed user, the
argument of `signup`): the value of the own property, `undefined` if none. A
list that repeats a key denotes what an object literal or a JSON text that
repeats a key denotes: the last entry counts. -/
def field : Fields → String → Option Json
  | [], _ => none
  | (k', v) :: fs, k =>
    match field fs k with
    | some w => some w
    | none => if k' == k then some v else none

/-- Property read `v.k` for a property name `k` that no built-in prototype
defines (`email`, `message`, ...): a `TypeError` on `null`, the own property
of an object, `undefined` on every other value. -/
def prop : Json → String → Except Thrown (Option Json)
  | .null, _ => .error .typeError
  | .obj fs, k => .ok (field fs k)
  | _, _ => .ok none

/-- Property write `o[k] = v` on an object under construction: an existing
key keeps its position, a new key goes last. -/
def setField : Fields → String → Json → Fields
  | [], k, v => [(k, v)]
  | (k', v') :: fs, k, v =>
    if k' == k then (k', v) :: fs else (k', v') :: setField fs k v

/-- Spread `{ ...target, ...source }` of the own properties of `source` into
an object under construction, one property write per key, in order. -/
def spreadInto (target source : Fields) : Fields :=
  source.foldl (fun acc kv => setField acc kv.1 kv.2) target

/-- The properties that the spread `...v` copies: those of an object, the
indexed elements of an array, the indexed code units of a string, nothing for
`undefined`, `null`, a boolean or a number. -/
def ownProps : Option Json → Fields
  | some (.obj fs) => fs
  | some (.arr xs) => xs.enum.map (fun p => (toString p.1, p.2))
  | some (.str s) => s.units.enum.map (fun p => (toString p.1, Json.str ⟨[p.2]⟩))
  | _ => []

/-- A property `k: v` of an object literal whose value may be `undefined`;
`JSON.stringify` leaves such a property out. -/
def optField (k : String) : Option Json → Fields
  | none => []
  | some v => [(k, v)]

/-! ## Store state -/

/-- The state the auth store reads and writes: the two React state cells of
`AuthProvider` and the two `localStorage` keys it uses (`none`: key absent). -/
structure State where
  user : Json
  loading : Bool
  session : Option Stored
  users : Option Stored

/-- The outcome of a store operation: what it returned or threw, and the state
it left behind (state writes made before a `throw` stay). -/
structure Result where
  outcome : Except Thrown (Option Json)
  state : State

/-- The flag `isAuthenticated: !!user`. -/
def isAuthenticated (st : State) : Bool :=
  truthy (some st.user)

/-- The call `JSON.parse` on a stored string. -/
def jsonParse : Stored → Except Thrown Json
  | .empty => .error .syntaxError
  | .malformed => .error .syntaxError
  | .json v => .ok v

/-- A stored string is truthy unless it is empty; `getItem` gives `null` for an
absent key, which is falsy. -/
def storedTruthy : Option Stored → Bool
  | none => false
  | some .empty => false
  | some _ => true

/-- The search `sampleUsers.find((u) => u.email === email)`. -/
def findSeedByEmail (sampleUsers : List Fields) (email : Option Json) : Option Fields :=
  sampleUsers.find? (fun u => strictEq (field u "email") email)

/-! ## Session restore (the mount effect of `AuthProvider`) -/

/-- The state right after the first render: `useState(null)`, `useState(true)`. -/
def mount (session users : Option Stored) : State :=
  { user := .null, loading := true, session := session, users := users }

/-- The search `sampleUsers.find((u) => u.email === session.email)`: the callback reads
`session.email` once per seed user it is called on, so a `null` session throws
at the first seed user and not at all when the seed list is empty. -/
def findSeedBySession (session : Json) : List Fields → Except Thrown (Option Fields)
  | [] => .ok none
  | u :: us =>
    match prop session "email" with
    | .error e => .error e
    | .ok email =>
      if strictEq (field u "email") email then .ok (some u) else findSeedBySession session us

/-- The body of the `try` block of the mount effect; a found seed user is an
object, hence truthy. -/
def restoreTry (sampleUsers : List Fields) (sessionData : Stored) (st : State) :
    Except Thrown State :=
  match jsonParse sessionData with
  | .error e => .error e
  | .ok session =>
    match findSeedBySession session sampleUsers with
    | .error e => .error e
    | .ok (some foundUser) => .ok { st with user := .obj foundUser }
    | .ok none => .ok st

/-- The mount effect: read `classmatch_session`; if truthy, try to restore and
on any exception remove the key; then `setLoading(false)`. -/
def restoreSession (sampleUsers : List Fields) (st : State) : Result :=
  let st1 : State :=
    match st.session with
    | none => st
    | some sessionData =>
      if storedTruthy (some sessionData) then
        match restoreTry sampleUsers sessionData st with
        | .ok st2 => st2
        | .error _ => { st with session := none }
      else st
  { outcome := .ok none, state := { st1 with loading := false } }

/-! ## login, logout -/

/-- The function `login(email, password)`; `now` is the reading of `Date.now()`. -/
def login (sampleUsers : List Fields) (now : Int) (st : State)
    (email password : Option Json) : Result :=
  match sampleUsers.find? (fun u =>
      strictEq (field u "email") email && strictEq (field u "password") password) with
  | none => { outcome := .error (.error (.str (utf16 "Invalid email or password"))), state := st }
  | some foundUser =>
    let session : Fields := optField "email" (field foundUser "email") ++ [("timestamp", .num now)]
    { outcome := .ok (some (.obj foundUser)),
      state := { st with session := some (.json (.obj session)), user := .obj foundUser } }

/-- The function `logout()`. -/
def logout (st : State) : Result :=
  { outcome := .ok none, state := { st with session := none, user := .null } }

/-! ## signup -/

/-- The read `JSON.parse(localStorage.getItem("classmatch_users") || "[]")`: an absent
key and an empty string are falsy and read as the empty list. -/
def readUsers : Option Stored → Except Thrown Json
  | none => .ok (.arr [])
  | some .empty => .ok (.arr [])
  | some s => jsonParse s

/-- The search `users.find((u) => u.email === email)` on the elements of a parsed array:
the first element whose callback is true, `undefined` if none; a `null`
element makes the callback throw. -/
def findByEmail (email : Option Json) : List Json → Except Thrown (Option Json)
  | [] => .ok none
  | u :: us =>
    match prop u "email" with
    | .error e => .error e
    | .ok e => if strictEq e email then .ok (some u) else findByEmail email us

/-- The call `name.split(" ")`: the pieces between single code units U+0020,
empty pieces included. -/
def splitOnSpace : List Nat → List (List Nat)
  | [] => [[]]
  | c :: cs =>
    if c = 32 then [] :: splitOnSpace cs
    else
      match splitOnSpace cs with
      | [] => [[c]]
      | t :: ts => (c :: t) :: ts

/-- The chain `pieces.map((n) => n[0]).join("")`: `n[0]` is the first code
unit of a piece, `undefined` for an empty piece, and `join` writes `undefined`
as the empty string. -/
def joinFirsts : List (List Nat) → List Nat
  | [] => []
  | n :: ns =>
    match n.head? with
    | none => joinFirsts ns
    | some c => c :: joinFirsts ns

/-- The call `s.toUpperCase()`, given the upper-case mapping of each code
point (one code point may map to several, as U+00DF does): the string is read
as code points, each is mapped, and the result is encoded again. An unpaired
surrogate is a code point of its own, which the Unicode table maps to itself. -/
def toUpperCase (upper : Nat → List Nat) (s : List Nat) : List Nat :=
  (((decodeUtf16 s).map upper).flatten.map encodeUtf16).flatten

/-- The avatar `name.split(" ").map((n) => n[0]).join("").toUpperCase()`. -/
def avatarOf (upper : Nat → List Nat) (name : JsString) : JsString :=
  ⟨toUpperCase upper (joinFirsts (splitOnSpace name.units))⟩

/-- The object literal `newUser` of `signup`. -/
def newUserRecord (upper : Nat → List Nat) (now : Int) (userData : Fields)
    (name : JsString) : Fields :=
  let o1 := spreadInto [("id", .num now)] userData
  let o2 := setField o1 "avatar" (.str (avatarOf upper name))
  let o3 := setField o2 "enrolledCourses" (.arr [])
  setField o3 "studyPreferences"
    (.obj [("times", .arr []), ("location", .arr []), ("style", .str (utf16 ""))])

/-- The function `signup(userData)`; `now1` and `now2` are the two readings of
`Date.now()`. `userData.name.split` is a `TypeError` unless the name is a
string. Nothing is written before the last possible `throw`. -/
def signup (sampleUsers : List Fields) (upper : Nat → List Nat) (now1 now2 : Int)
    (st : State) (userData : Fields) : Result :=
  match readUsers st.users with
  | .error e => { outcome := .error e, state := st }
  | .ok (.arr users) =>
    match findByEmail (field userData "email") users with
    | .error e => { outcome := .error e, state := st }
    | .ok found =>
      if truthy found ||
          truthy ((findSeedByEmail sampleUsers (field userData "email")).map Json.obj) then
        { outcome := .error (.error (.str (utf16 "Email already exists"))), state := st }
      else
        match field userData "name" with
        | some (.str name) =>
          let newUser := newUserRecord upper now1 userData name
          let session : Fields :=
            optField "email" (field newUser "email") ++ [("timestamp", .num now2)]
          { outcome := .ok (some (.obj newUser)),
            state := { st with
              users := some (.json (.arr (users ++ [.obj newUser]))),
              session := some (.json (.obj session)),
              user := .obj newUser } }
        | _ => { outcome := .error .typeError, state := st }
  | .ok _ => { outcome := .error .typeError, state := st }

/-! ## updateProfile -/

/-- The search `users.findIndex((u) => u.email === user.email)`: the callback reads
`u.email`, then `user.email`, and either read throws on `null`. The result is
the index of the first match, `none` standing for `-1`. -/
def findIndexByEmail (user : Json) : List Json → Except Thrown (Option Nat)
  | [] => .ok none
  | u :: us =>
    match prop u "email" with
    | .error e => .error e
    | .ok e =>
      match prop user "email" with
      | .error e' => .error e'
      | .ok ue =>
        if strictEq e ue then .ok (some 0)
        else
          match findIndexByEmail user us with
          | .error e' => .error e'
          | .ok none => .ok none
          | .ok (some i) => .ok (some (i + 1))

/-- The function `updateProfile(updates)`. `setUser` comes first, so the merged
user is in the state whatever happens afterwards; `user` keeps denoting the
user of the current render throughout. -/
def updateProfile (st : State) (updates : Option Json) : Result :=
  let updatedUser : Fields := spreadInto (spreadInto [] (ownProps (some st.user))) (ownProps updates)
  let st1 : State := { st with user := .obj updatedUser }
  match readUsers st.users with
  | .error e => { outcome := .error e, state := st1 }
  | .ok (.arr users) =>
    match findIndexByEmail st.user users with
    | .error e => { outcome := .error e, state := st1 }
    | .ok none => { outcome := .ok none, state := st1 }
    | .ok (some index) =>
      { outcome := .ok none,
        state := { st1 with users := some (.json (.arr (users.set index (.obj updatedUser)))) } }
  | .ok _ => { outcome := .error .typeError, state := st1 }

/-! ## apiRequest -/

/-- The operand `token && { Authorization: ... }` of the spread in `headers`:
`getItem` gives `null` or a string, the empty string is falsy like `null`, and
spreading a falsy value copies nothing. -/
def authHeader : Option String → Fields
  | none => []
  | some token =>
    if token = "" then [] else [("Authorization", .str (utf16 ("Bearer " ++ token)))]

/-- The object `config` that `apiRequest` builds and passes to `fetch`. -/
def requestConfig (token : Option String) (options : Fields) : Fields :=
  let headers : Fields :=
    spreadInto
      (spreadInto [("Content-Type", .str (utf16 "application/json"))] (authHeader token))
      (ownProps (field options "headers"))
  spreadInto [("headers", .obj headers)] options

/-- The header `name` of a request configuration: `config.headers[name]`. -/
def header (config : Fields) (name : String) : Except Thrown (Option Json) :=
  match field config "headers" with
  | none => .error .typeError
  | some h => prop h name

/-- A resolved `fetch`: the flag `response.ok` and what `response.json()`
resolves to, `none` when the body is not JSON text and `json()` rejects. -/
structure Response where
  ok : Bool
  body : Option Json

/-- The call `response.json()`: a `SyntaxError` when the body is not JSON text. -/
def Response.json (r : Response) : Except Thrown Json :=
  match r.body with
  | none => .error .syntaxError
  | some v => .ok v

/-- The function `apiRequest(endpoint, options)`: `base` is `API_BASE_URL`,
`token` the string stored under `auth_token`, and `fetch` the network, which
either rejects or resolves to a response. -/
def apiRequest (base : String) (token : Option String)
    (fetch : String → Fields → Except Thrown Response)
    (endpoint : String) (options : Fields) : Except Thrown Json :=
  match fetch (base ++ endpoint) (requestConfig token options) with
  | .error e => .error e
  | .ok response =>
    if !response.ok then
      match response.json with
      | .error e => .error e
      | .ok error =>
        match prop error "message" with
        | .error e => .error e
        | .ok message => .error (.error (orElse message (.str (utf16 "API request failed"))))
    else response.json

/-! ## Vocabulary of the properties -/

/-- The element `u` is the first element of `l` that satisfies `p`. -/
def IsFirst {α : Type} (p : α → Prop) (l : List α) (u : α) : Prop :=
  ∃ pre post, l = pre ++ u :: post ∧ p u ∧ ∀ v ∈ pre, ¬ p v

/-- A seed user has both that email and that password, compared with `===`. -/
def HasCredentials (email password : Option Json) (u : Fields) : Prop :=
  strictEq (field u "email") email = true ∧ strictEq (field u "password") password = true

/-- A seed user has that email, compared with `===`. -/
def HasEmail (email : Option Json) (u : Fields) : Prop :=
  strictEq (field u "email") email = true

/-- The email that a stored value carries as a session record: `v.email`
where that read is possible (it is not on `null`). -/
def SessionEmail (v : Json) (email : Option Json) : Prop :=
  prop v "email" = .ok email

/-- A user record: an object. -/
def IsRecord : Json → Prop
  | .obj _ => True
  | _ => False

/-- The email of a value taken as a user record. -/
def emailOf : Json → Option Json
  | .obj fs => field fs "email"
  | _ => none

/-- The pieces of a string between separator code units, empty pieces
included. -/
def splitBy (sep : Nat → Bool) : List Nat → List (List Nat)
  | [] => [[]]
  | c :: cs =>
    if sep c then [] :: splitBy sep cs
    else
      match splitBy sep cs with
      | [] => [[c]]
      | t :: ts => (c :: t) :: ts

/-- The tokens of a string: the non-empty pieces between separators. Tokens
are thus separated by one or more separators, and leading or trailing
separators yield no token. -/
def tokensBy (sep : Nat → Bool) (s : List Nat) : List (List Nat) :=
  (splitBy sep s).filter (fun t => !t.isEmpty)

/-- The upper-cased first character of a token: its first code point, mapped
and encoded. -/
def upperInitial (upper : Nat → List Nat) (token : List Nat) : List Nat :=
  match decodeUtf16 token with
  | [] => []
  | cp :: _ => ((upper cp).map encodeUtf16).flatten

/-- The initials of a name as the specification words them: the concatenation,
in order, of the upper-cased first character of each token. -/
def initialsOf (upper : Nat → List Nat) (sep : Nat → Bool) (name : JsString) : JsString :=
  ⟨((tokensBy sep name.units).map (upperInitial upper)).flatten⟩

/-- The first UTF-16 code unit of each token, in order. -/
def initialUnits (sep : Nat → Bool) (name : JsString) : List Nat :=
  (tokensBy sep name.units).filterMap List.head?

/-- Whitespace in the sense of the specification: space, tab, newline. -/
def isWhitespace (c : Nat) : Bool :=
  c = 32 || c = 9 || c = 10

/-- The separator of the code: the space character U+0020 alone. -/
def isSpace (c : Nat) : Bool :=
  c = 32

/-- The upper-case table restricted to ASCII, where it maps `a`..`z` to
`A`..`Z` and leaves every other code point alone. -/
def asciiUpper (cp : Nat) : List Nat :=
  if 97 ≤ cp ∧ cp ≤ 122 then [cp - 32] else [cp]

/-- The keys of an object, in order. -/
def keys (fs : Fields) : List String :=
  fs.map Prod.fst

/-- The list of records that `classmatch_users` holds: none when the key is
absent or empty, the elements of the stored JSON list otherwise. -/
def PersistedRecords (cell : Option Stored) (users : List Json) : Prop :=
  ((cell = none ∨ cell = some .empty) ∧ users = []) ∨ cell = some (.json (.arr users))

/-- Email uniqueness as a property of the state, for a given seed list:
`classmatch_users` holds a list of records whose emails are pairwise distinct
and distinct from the email of every seed user (distinct: not `===`). -/
def UniqueEmails (sampleUsers : List Fields) (st : State) : Prop :=
  ∃ users, PersistedRecords st.users users ∧ (∀ r ∈ users, IsRecord r) ∧
    users.Pairwise (fun a b => strictEq (emailOf a) (emailOf b) = false) ∧
    ∀ r ∈ users, ∀ u ∈ sampleUsers, strictEq (emailOf r) (field u "email") = false

/-- A state for the examples: the user `b@x.edu`, created by `signup`, is
logged in, and `classmatch_users` holds that user after another one. -/
def signedUpState : State :=
  { user := .obj [("id", .num 2), ("name", .str (utf16 "Bo")), ("email", .str (utf16 "b@x.edu"))],
    loading := false,
    session := some (.json (.obj [("email", .str (utf16 "b@x.edu")), ("timestamp", .num 2)])),
    users := some (.json (.arr [
      .obj [("id", .num 1), ("name", .str (utf16 "Cy")), ("email", .str (utf16 "c@x.edu"))],
      .obj [("id", .num 2), ("name", .str (utf16 "Bo")), ("email", .str (utf16 "b@x.edu"))]])) }

/-- A seed list for the examples. -/
def seedExample : List Fields :=
  [[("email", .str (utf16 "a@x.edu")), ("password", .str (utf16 "pw")), ("name", .str (utf16 "Ann"))]]

/-! ## Basic facts -/

theorem strictEq_str_iff (a : Option Json) (s : JsString) :
    strictEq a (some (.str s)) = true ↔ a = some (.str s) := by
  cases a with
  | none => simp [strictEq]
  | some v => cases v <;> simp [strictEq]

theorem strictEq_symm (a b : Option Json) : strictEq a b = strictEq b a := by
  cases a with
  | none => cases b with
    | none => rfl
    | some w => cases w <;> rfl
  | some v =>
    cases b with
    | none => cases v <;> rfl
    | some w => cases v <;> cases w <;> simp [strictEq, eq_comm]

/-- Strict equality is equality of the operands, where it holds. -/
theorem eq_of_strictEq {a b : Option Json} (h : strictEq a b = true) : a = b := by
  cases a with
  | none => cases b with
    | none => rfl
    | some w => cases w <;> simp [strictEq] at h
  | some v =>
    cases b with
    | none => cases v <;> simp [strictEq] at h
    | some w => cases v <;> cases w <;> simp_all [strictEq]

theorem isFirst_of_find? {α : Type} {p : α → Bool} {l : List α} {u : α}
    (h : l.find? p = some u) : IsFirst (fun x => p x = true) l u := by
  obtain ⟨hu, pre, post, hl, hpre⟩ := List.find?_eq_some.mp h
  exact ⟨pre, post, hl, hu, fun v hv => by simpa using hpre v hv⟩

/-! ## C5: logout -/

/-- C5. For every store state, after `logout()` the key `classmatch_session` is
absent, the current user is `null` so `isAuthenticated` is false, and the value
under `classmatch_users` is what it was before; `logout` does not throw. -/
theorem logout_clears_session (st : State) :
    (logout st).outcome = .ok none ∧
    (logout st).state.session = none ∧
    (logout st).state.user = .null ∧
    isAuthenticated (logout st).state = false ∧
    (logout st).state.users = st.users :=
  ⟨rfl, rfl, rfl, rfl, rfl⟩

/-! ## C1: login -/

/-- C1. For every seed list, email and password, `login` throws
`Error("Invalid email or password")` exactly when no seed user has both that
email and that password, and then leaves the state as it was; otherwise it
returns the first seed user with both, makes it the current user
(`isAuthenticated` true) and stores under `classmatch_session` a session record
whose email is that user's email. -/
theorem login_spec (sampleUsers : List Fields) (now : Int) (st : State)
    (email password : Option Json) :
    ((login sampleUsers now st email password).outcome
        = .error (.error (.str (utf16 "Invalid email or password")))
      ↔ ¬ ∃ u ∈ sampleUsers, HasCredentials email password u) ∧
    (((¬ ∃ u ∈ sampleUsers, HasCredentials email password u) ∧
        (login sampleUsers now st email password).state = st) ∨
      ∃ u, IsFirst (HasCredentials email password) sampleUsers u ∧
        (login sampleUsers now st email password).outcome = .ok (some (.obj u)) ∧
        (login sampleUsers now st email password).state.user = .obj u ∧
        isAuthenticated (login sampleUsers now st email password).state = true ∧
        (login sampleUsers now st email password).state.users = st.users ∧
        ∃ record, (login sampleUsers now st email password).state.session
            = some (.json (.obj record)) ∧
          field record "email" = field u "email") := by
  unfold login
  cases hfind : sampleUsers.find? (fun u =>
      strictEq (field u "email") email && strictEq (field u "password") password) with
  | none =>
    have hnone : ¬ ∃ u ∈ sampleUsers, HasCredentials email password u := by
      rintro ⟨u, hu, h1, h2⟩
      have := List.find?_eq_none.mp hfind u hu
      simp [h1, h2] at this
    exact ⟨⟨fun _ => hnone, fun _ => rfl⟩, Or.inl ⟨hnone, rfl⟩⟩
  | some u =>
    have hfirst := isFirst_of_find? hfind
    have hfirst' : IsFirst (HasCredentials email password) sampleUsers u := by
      obtain ⟨pre, post, hl, hu, hpre⟩ := hfirst
      refine ⟨pre, post, hl, by simpa [HasCredentials] using hu, fun v hv hc => hpre v hv ?_⟩
      simpa [HasCredentials] using hc
    have hex : ∃ u ∈ sampleUsers, HasCredentials email password u := by
      obtain ⟨pre, post, hl, hu, _⟩ := hfirst'
      exact ⟨u, by simp [hl], hu⟩
    refine ⟨⟨fun h => by simp at h, fun h => absurd hex h⟩, Or.inr ⟨u, hfirst', rfl, rfl, rfl, rfl, ?_⟩⟩
    refine ⟨_, rfl, ?_⟩
    cases he : field u "email" with
    | none => simp [optField, field]
    | some v => simp [optField, field]

/-! ## C6: session restore -/

theorem isFirst_hasEmail_of_find {sampleUsers : List Fields} {e : Option Json} {u : Fields}
    (h : findSeedByEmail sampleUsers e = some u) : IsFirst (HasEmail e) sampleUsers u := by
  obtain ⟨pre, post, hl, hu, hpre⟩ := isFirst_of_find? h
  exact ⟨pre, post, hl, hu, hpre⟩

theorem no_hasEmail_of_find {sampleUsers : List Fields} {e : Option Json}
    (h : findSeedByEmail sampleUsers e = none) : ¬ ∃ u ∈ sampleUsers, HasEmail e u := by
  rintro ⟨u, hu, hm⟩
  have := List.find?_eq_none.mp h u hu
  exact this hm

/-- Where `session.email` can be read, the search of the mount effect is the
search for the first seed user with that email. -/
theorem findSeedBySession_of_prop {session : Json} {e : Option Json}
    (h : prop session "email" = .ok e) (sampleUsers : List Fields) :
    findSeedBySession session sampleUsers = .ok (findSeedByEmail sampleUsers e) := by
  induction sampleUsers with
  | nil => rfl
  | cons u us ih =>
    cases hc : strictEq (field u "email") e with
    | true => simp [findSeedBySession, findSeedByEmail, h, hc]
    | false =>
      simp only [findSeedBySession, h, hc, ih]
      simp [findSeedByEmail, hc]

theorem restoreSession_found (sampleUsers : List Fields) (v : Json) (u : Fields)
    (users : Option Stored) (h : findSeedBySession v sampleUsers = .ok (some u)) :
    (restoreSession sampleUsers (mount (some (.json v)) users)).state
      = { user := .obj u, loading := false, session := some (.json v), users := users } := by
  simp only [restoreSession, mount, storedTruthy, restoreTry, jsonParse, h, if_true]

theorem restoreSession_not_found (sampleUsers : List Fields) (v : Json)
    (users : Option Stored) (h : findSeedBySession v sampleUsers = .ok none) :
    (restoreSession sampleUsers (mount (some (.json v)) users)).state
      = { user := .null, loading := false, session := some (.json v), users := users } := by
  simp only [restoreSession, mount, storedTruthy, restoreTry, jsonParse, h, if_true]

theorem restoreSession_thrown (sampleUsers : List Fields) (v : Json) (e : Thrown)
    (users : Option Stored) (h : findSeedBySession v sampleUsers = .error e) :
    (restoreSession sampleUsers (mount (some (.json v)) users)).state
      = { user := .null, loading := false, session := none, users := users } := by
  simp only [restoreSession, mount, storedTruthy, restoreTry, jsonParse, h, if_true]

theorem no_sessionEmail_null {cell : Option Stored} {sampleUsers : List Fields}
    (h : cell = some (.json .null)) :
    ¬ ∃ v e, cell = some (.json v) ∧ SessionEmail v e ∧ ∃ u ∈ sampleUsers, HasEmail e u := by
  rintro ⟨v, e, hv, he, _⟩
  rw [h] at hv
  cases hv
  simp [SessionEmail, prop] at he

/-- C6 as stated fails at the empty string. The empty string is not JSON text
(`JSON.parse` throws on it), yet with `""` stored under `classmatch_session`
the mount effect leaves the key in place: the guard `if (sessionData)` is
false and nothing is parsed or removed. -/
theorem restore_keeps_empty_string :
    jsonParse Stored.empty = .error .syntaxError ∧
    (restoreSession [] (mount (some .empty) none)).state.session = some .empty ∧
    (restoreSession [] (mount (some .empty) none)).state.session ≠ none :=
  ⟨rfl, rfl, fun h => nomatch h⟩

/-- C6, amended. For every value under `classmatch_session` the mount effect
does not throw and ends with `loading = false`, leaving `classmatch_users`
alone. The current user is set exactly when the value parses, its email can be
read and equals the email of a seed user, and it is then the first such seed
user, the session key staying as it was; otherwise the user stays `null`
(unauthenticated). The key is removed exactly when the value is a non-empty
string that is not JSON text, or parses to `null` while there is a seed user to
compare with; in every other case, the empty string included, the key keeps its
value. -/
theorem restoreSession_spec (sampleUsers : List Fields) (cell users : Option Stored) :
    (restoreSession sampleUsers (mount cell users)).outcome = .ok none ∧
    (restoreSession sampleUsers (mount cell users)).state.loading = false ∧
    (restoreSession sampleUsers (mount cell users)).state.users = users ∧
    ((∃ v e u, cell = some (.json v) ∧ SessionEmail v e ∧
        IsFirst (HasEmail e) sampleUsers u ∧
        (restoreSession sampleUsers (mount cell users)).state.user = .obj u ∧
        isAuthenticated (restoreSession sampleUsers (mount cell users)).state = true ∧
        (restoreSession sampleUsers (mount cell users)).state.session = cell) ∨
      ((¬ ∃ v e, cell = some (.json v) ∧ SessionEmail v e ∧
          ∃ u ∈ sampleUsers, HasEmail e u) ∧
        (restoreSession sampleUsers (mount cell users)).state.user = .null ∧
        isAuthenticated (restoreSession sampleUsers (mount cell users)).state = false)) ∧
    ((restoreSession sampleUsers (mount cell users)).state.session = none ↔
      cell = none ∨ cell = some .malformed ∨
        (cell = some (.json .null) ∧ sampleUsers ≠ [])) ∧
    ((restoreSession sampleUsers (mount cell users)).state.session = none ∨
      (restoreSession sampleUsers (mount cell users)).state.session = cell) := by
  refine ⟨rfl, ?_⟩
  cases cell with
  | none => exact ⟨rfl, rfl, Or.inr ⟨by simp, rfl, rfl⟩, by simp [restoreSession, mount], Or.inl rfl⟩
  | some s =>
    cases s with
    | empty =>
      exact ⟨rfl, rfl, Or.inr ⟨by simp, rfl, rfl⟩,
        by simp [restoreSession, mount, storedTruthy], Or.inr rfl⟩
    | malformed =>
      exact ⟨rfl, rfl, Or.inr ⟨by simp, rfl, rfl⟩,
        by simp [restoreSession, mount, storedTruthy, restoreTry, jsonParse], Or.inl rfl⟩
    | json v =>
      have key : ∀ e : Option Json, prop v "email" = .ok e →
          (restoreSession sampleUsers (mount (some (.json v)) users)).state.loading = false ∧
          (restoreSession sampleUsers (mount (some (.json v)) users)).state.users = users ∧
          ((∃ w e u, some (Stored.json v) = some (.json w) ∧ SessionEmail w e ∧
              IsFirst (HasEmail e) sampleUsers u ∧
              (restoreSession sampleUsers (mount (some (.json v)) users)).state.user = .obj u ∧
              isAuthenticated (restoreSession sampleUsers (mount (some (.json v)) users)).state
                = true ∧
              (restoreSession sampleUsers (mount (some (.json v)) users)).state.session
                = some (.json v)) ∨
            ((¬ ∃ w e, some (Stored.json v) = some (.json w) ∧ SessionEmail w e ∧
                ∃ u ∈ sampleUsers, HasEmail e u) ∧
              (restoreSession sampleUsers (mount (some (.json v)) users)).state.user = .null ∧
              isAuthenticated (restoreSession sampleUsers (mount (some (.json v)) users)).state
                = false)) ∧
          ((restoreSession sampleUsers (mount (some (.json v)) users)).state.session = none ↔
            some (Stored.json v) = none ∨ some (Stored.json v) = some .malformed ∨
              (some (Stored.json v) = some (.json .null) ∧ sampleUsers ≠ [])) ∧
          ((restoreSession sampleUsers (mount (some (.json v)) users)).state.session = none ∨
            (restoreSession sampleUsers (mount (some (.json v)) users)).state.session
              = some (.json v)) := by
        intro e he
        have hv : v ≠ .null := by
          rintro rfl
          simp [prop] at he
        have hfind := findSeedBySession_of_prop he sampleUsers
        cases hr : findSeedByEmail sampleUsers e with
        | some u =>
          rw [hr] at hfind
          rw [restoreSession_found sampleUsers v u users hfind]
          exact ⟨rfl, rfl, Or.inl ⟨v, e, u, rfl, he, isFirst_hasEmail_of_find hr, rfl, rfl, rfl⟩,
            by simp [hv], Or.inr rfl⟩
        | none =>
          rw [hr] at hfind
          rw [restoreSession_not_found sampleUsers v users hfind]
          refine ⟨rfl, rfl, Or.inr ⟨?_, rfl, rfl⟩, by simp [hv], Or.inr rfl⟩
          rintro ⟨w, e', hw, he', hex⟩
          cases hw
          have : e' = e := by
            have h := he'.symm.trans he
            cases h
            rfl
          subst this
          exact no_hasEmail_of_find hr hex
      cases v with
      | null =>
        cases sampleUsers with
        | nil =>
          rw [restoreSession_not_found [] .null users rfl]
          exact ⟨rfl, rfl, Or.inr ⟨no_sessionEmail_null rfl, rfl, rfl⟩, by simp, Or.inr rfl⟩
        | cons u us =>
          rw [restoreSession_thrown (u :: us) .null .typeError users
            (by simp [findSeedBySession, prop])]
          exact ⟨rfl, rfl, Or.inr ⟨no_sessionEmail_null rfl, rfl, rfl⟩, by simp, Or.inl rfl⟩
      | bool b => exact key none rfl
      | num n => exact key none rfl
      | str x => exact key none rfl
      | arr xs => exact key none rfl
      | obj fs => exact key (field fs "email") rfl

/-- What the mount effect does with a session that parses to `null`, with a
malformed one, and with the session of a seed user. -/
theorem restoreSession_examples :
    (restoreSession seedExample (mount (some (.json .null)) none)).state
      = { user := .null, loading := false, session := none, users := none } ∧
    (restoreSession seedExample (mount (some .malformed) none)).state
      = { user := .null, loading := false, session := none, users := none } ∧
    (restoreSession seedExample
        (mount (some (.json (.obj [("email", .str (utf16 "a@x.edu")), ("timestamp", .num 5)]))) none)).state
      = { user := .obj [("email", .str (utf16 "a@x.edu")), ("password", .str (utf16 "pw")), ("name", .str (utf16 "Ann"))],
          loading := false,
          session := some (.json (.obj [("email", .str (utf16 "a@x.edu")), ("timestamp", .num 5)])),
          users := none } ∧
    (restoreSession seedExample
        (mount (some (.json (.obj [("email", .str (utf16 "b@x.edu")), ("timestamp", .num 5)]))) none)).state
      = { user := .null, loading := false,
          session := some (.json (.obj [("email", .str (utf16 "b@x.edu")), ("timestamp", .num 5)])),
          users := none } :=
  ⟨rfl, rfl, rfl, rfl⟩

/-! ## Objects: property writes and spreads -/

theorem field_eq_none_of_not_mem {fs : Fields} {k : String} (h : k ∉ keys fs) :
    field fs k = none := by
  induction fs with
  | nil => rfl
  | cons p fs ih =>
    obtain ⟨a, b⟩ := p
    simp only [keys, List.map_cons, List.mem_cons, not_or] at h
    have h2 : k ∉ keys fs := h.2
    have h1 : ¬ a = k := fun e => h.1 e.symm
    simp [field, ih h2, h1]

theorem keys_setField (fs : Fields) (k : String) (v : Json) :
    keys (setField fs k v) = if k ∈ keys fs then keys fs else keys fs ++ [k] := by
  induction fs with
  | nil => simp [setField, keys]
  | cons p fs ih =>
    obtain ⟨a, b⟩ := p
    by_cases hak : a = k
    · subst hak
      simp [setField, keys]
    · have hka : ¬ k = a := fun e => hak e.symm
      simp only [keys] at ih
      simp only [setField, beq_iff_eq, hak, if_false, keys, List.map_cons, List.mem_cons, hka,
        false_or, ih]
      split <;> simp

theorem nodup_setField {fs : Fields} (k : String) (v : Json) (h : (keys fs).Nodup) :
    (keys (setField fs k v)).Nodup := by
  rw [keys_setField]
  split
  · exact h
  · rename_i hk
    exact List.nodup_append.mpr ⟨h, List.nodup_singleton k, by
      intro a ha hb
      simp at hb
      exact hk (hb ▸ ha)⟩

theorem field_setField {fs : Fields} (k : String) (v : Json) (k' : String)
    (h : (keys fs).Nodup) :
    field (setField fs k v) k' = if k' = k then some v else field fs k' := by
  induction fs with
  | nil =>
    by_cases e : k' = k
    · simp [setField, field, e]
    · have e' : ¬ k = k' := fun x => e x.symm
      simp [setField, field, e, e']
  | cons p fs ih =>
    obtain ⟨a, b⟩ := p
    have hn : (keys fs).Nodup := (List.nodup_cons.mp h).2
    have ha : a ∉ keys fs := (List.nodup_cons.mp h).1
    by_cases hak : a = k
    · subst hak
      by_cases e : k' = a
      · subst e
        simp [setField, field, field_eq_none_of_not_mem ha]
      · have e' : ¬ a = k' := fun x => e x.symm
        simp [setField, field, e, e']
    · by_cases e : k' = k
      · subst e
        simp [setField, field, hak, ih hn]
      · simp [setField, field, hak, ih hn, e]

theorem nodup_spreadInto {t : Fields} (s : Fields) (h : (keys t).Nodup) :
    (keys (spreadInto t s)).Nodup := by
  induction s generalizing t with
  | nil => exact h
  | cons p s ih => exact ih (nodup_setField p.1 p.2 h)

theorem field_spreadInto {t : Fields} (s : Fields) (k : String) (h : (keys t).Nodup) :
    field (spreadInto t s) k =
      match field s k with
      | some w => some w
      | none => field t k := by
  induction s generalizing t with
  | nil => rfl
  | cons p s ih =>
    obtain ⟨a, b⟩ := p
    have step : spreadInto t ((a, b) :: s) = spreadInto (setField t a b) s := rfl
    rw [step, ih (nodup_setField a b h), field_setField a b k h]
    cases hs : field s k with
    | some w => simp [field, hs]
    | none =>
      by_cases e : k = a
      · subst e
        simp [field, hs]
      · have e' : ¬ a = k := fun x => e x.symm
        simp [field, hs, e, e']

/-! ## signup: the email check -/

theorem findByEmail_records (e : Option Json) (xs : List Json) (h : ∀ r ∈ xs, IsRecord r) :
    findByEmail e xs = .ok (xs.find? (fun r => strictEq (emailOf r) e)) := by
  induction xs with
  | nil => rfl
  | cons u us ih =>
    have hu : IsRecord u := h u (List.mem_cons_self u us)
    have hus : ∀ r ∈ us, IsRecord r := fun r hr => h r (List.mem_cons_of_mem u hr)
    cases u with
    | obj fs =>
      cases hc : strictEq (field fs "email") e with
      | true => simp [findByEmail, prop, emailOf, hc]
      | false => simp [findByEmail, prop, emailOf, hc, ih hus]
    | null => exact absurd hu (by simp [IsRecord])
    | bool b => exact absurd hu (by simp [IsRecord])
    | num n => exact absurd hu (by simp [IsRecord])
    | str x => exact absurd hu (by simp [IsRecord])
    | arr ys => exact absurd hu (by simp [IsRecord])

theorem truthy_of_isRecord {r : Json} (h : IsRecord r) : truthy (some r) = true := by
  cases r <;> first | rfl | exact absurd h (by simp [IsRecord])

theorem readUsers_of_cell {cell : Option Stored} {users : List Json}
    (hcell : (cell = none ∧ users = []) ∨ cell = some (.json (.arr users))) :
    readUsers cell = .ok (.arr users) := by
  rcases hcell with ⟨h1, h2⟩ | h
  · subst h1
    subst h2
    rfl
  · subst h
    rfl

/-- Whether the email check of `signup` finds the email, on a list of records. -/
theorem signup_check_records (sampleUsers : List Fields) (e : Option Json) (users : List Json)
    (hrec : ∀ r ∈ users, IsRecord r) :
    (truthy (users.find? (fun r => strictEq (emailOf r) e)) ||
        truthy ((findSeedByEmail sampleUsers e).map Json.obj)) = true ↔
      ((∃ r ∈ users, strictEq (emailOf r) e = true) ∨ ∃ u ∈ sampleUsers, HasEmail e u) := by
  constructor
  · intro h
    rcases Bool.or_eq_true _ _ ▸ h with h1 | h2
    · left
      cases hf : users.find? (fun r => strictEq (emailOf r) e) with
      | none => simp [hf, truthy] at h1
      | some r =>
        exact ⟨r, List.mem_of_find?_eq_some hf,
          List.find?_some (p := fun r => strictEq (emailOf r) e) hf⟩
    · right
      cases hf : findSeedByEmail sampleUsers e with
      | none => simp [hf, truthy] at h2
      | some u =>
        exact ⟨u, List.mem_of_find?_eq_some hf,
          List.find?_some (p := fun u => strictEq (field u "email") e) hf⟩
  · rintro (⟨r, hr, hm⟩ | ⟨u, hu, hm⟩)
    · cases hf : users.find? (fun r => strictEq (emailOf r) e) with
      | none =>
        have := List.find?_eq_none.mp hf r hr
        exact absurd hm this
      | some r' =>
        have : truthy (some r') = true :=
          truthy_of_isRecord (hrec r' (List.mem_of_find?_eq_some hf))
        simp [this]
    · cases hf : findSeedByEmail sampleUsers e with
      | none =>
        have := List.find?_eq_none.mp hf u hu
        exact absurd hm this
      | some u' => simp [truthy]

/-! ## C2: signup with an email that exists -/

/-- C2. For every seed list, every `classmatch_users` value that is absent or a
JSON list of user records, and every `userData` whose email equals (`===`) the
email of a seed user or of a persisted user, `signup(userData)` throws
`Error("Email already exists")`, whatever the other fields of `userData` are,
and leaves the whole state (`classmatch_users`, `classmatch_session`, the
current user) as it was. -/
theorem signup_existing_email (sampleUsers : List Fields) (upper : Nat → List Nat)
    (now1 now2 : Int) (st : State) (userData : Fields) (users : List Json)
    (hcell : (st.users = none ∧ users = []) ∨ st.users = some (.json (.arr users)))
    (hrec : ∀ r ∈ users, IsRecord r)
    (hdup : (∃ u ∈ sampleUsers, HasEmail (field userData "email") u) ∨
      ∃ r ∈ users, strictEq (emailOf r) (field userData "email") = true) :
    (signup sampleUsers upper now1 now2 st userData).outcome
        = .error (.error (.str (utf16 "Email already exists"))) ∧
    (signup sampleUsers upper now1 now2 st userData).state = st := by
  have hcheck := (signup_check_records sampleUsers (field userData "email") users hrec).mpr
    (hdup.symm)
  simp only [signup, readUsers_of_cell hcell, findByEmail_records _ _ hrec, hcheck, if_true,
    and_self]

/-- An instance of `signup_existing_email`: the email of a persisted user, and
a `userData` without a name. -/
theorem signup_existing_email_witness :
    (signup [[("email", .str (utf16 "a@x.edu")), ("password", .str (utf16 "pw"))]] asciiUpper 1 2
        (mount (some .malformed) (some (.json (.arr [.obj [("email", .str (utf16 "b@x.edu"))]]))))
        [("email", .str (utf16 "b@x.edu"))]).outcome
      = .error (.error (.str (utf16 "Email already exists"))) ∧
    (signup [[("email", .str (utf16 "a@x.edu")), ("password", .str (utf16 "pw"))]] asciiUpper 1 2
        (mount (some .malformed) (some (.json (.arr [.obj [("email", .str (utf16 "b@x.edu"))]]))))
        [("email", .str (utf16 "b@x.edu"))]).state
      = mount (some .malformed) (some (.json (.arr [.obj [("email", .str (utf16 "b@x.edu"))]]))) :=
  signup_existing_email [[("email", .str (utf16 "a@x.edu")), ("password", .str (utf16 "pw"))]] asciiUpper 1 2
    (mount (some .malformed) (some (.json (.arr [.obj [("email", .str (utf16 "b@x.edu"))]]))))
    [("email", .str (utf16 "b@x.edu"))] [.obj [("email", .str (utf16 "b@x.edu"))]]
    (Or.inr rfl)
    (by intro r hr; simp at hr; subst hr; trivial)
    (Or.inr ⟨.obj [("email", .str (utf16 "b@x.edu"))], by simp, rfl⟩)

/-! ## C3: signup with a fresh email -/

theorem nodup_newUser_base (now : Int) (userData : Fields) :
    (keys (spreadInto [("id", .num now)] userData)).Nodup :=
  nodup_spreadInto userData (by simp [keys])

/-- The fields of `newUser` that come from `userData`: every key other than
the three written after the spread. -/
theorem field_newUserRecord (upper : Nat → List Nat) (now : Int) (userData : Fields)
    (name : JsString) (k : String) (h1 : k ≠ "avatar") (h2 : k ≠ "enrolledCourses")
    (h3 : k ≠ "studyPreferences") :
    field (newUserRecord upper now userData name) k =
      match field userData k with
      | some w => some w
      | none => field [("id", .num now)] k := by
  have n1 := nodup_newUser_base now userData
  have n2 := nodup_setField "avatar" (.str (avatarOf upper name)) n1
  have n3 := nodup_setField "enrolledCourses" (.arr []) n2
  simp only [newUserRecord]
  rw [field_setField _ _ _ n3, if_neg h3, field_setField _ _ _ n2, if_neg h2,
    field_setField _ _ _ n1, if_neg h1, field_spreadInto _ _ (by simp [keys])]

theorem field_newUserRecord_avatar (upper : Nat → List Nat) (now : Int) (userData : Fields)
    (name : JsString) :
    field (newUserRecord upper now userData name) "avatar" = some (.str (avatarOf upper name)) := by
  have n1 := nodup_newUser_base now userData
  have n2 := nodup_setField "avatar" (.str (avatarOf upper name)) n1
  have n3 := nodup_setField "enrolledCourses" (.arr []) n2
  simp only [newUserRecord]
  rw [field_setField _ _ _ n3, if_neg (by decide), field_setField _ _ _ n2, if_neg (by decide),
    field_setField _ _ _ n1, if_pos rfl]

theorem field_sessionRecord (e : Option Json) (now : Int) :
    field (optField "email" e ++ [("timestamp", .num now)]) "email" = e := by
  cases e with
  | none => simp [optField, field]
  | some v => simp [optField, field]

/-- C3. For every `userData` whose name is a string and whose email is found
(`===`) neither in the seed list nor in the persisted list, the latter absent
or a JSON list of user records, `signup(userData)` returns a new user, which
becomes the current user (`isAuthenticated` true) and carries the email and the
name of `userData`; `classmatch_users` becomes the previous list with the new
user appended at the end; and `classmatch_session` holds a session record whose
email is `userData.email`. -/
theorem signup_fresh_email (sampleUsers : List Fields) (upper : Nat → List Nat)
    (now1 now2 : Int) (st : State) (userData : Fields) (users : List Json) (name : JsString)
    (hcell : (st.users = none ∧ users = []) ∨ st.users = some (.json (.arr users)))
    (hrec : ∀ r ∈ users, IsRecord r)
    (hname : field userData "name" = some (.str name))
    (hseed : ∀ u ∈ sampleUsers, ¬ HasEmail (field userData "email") u)
    (husers : ∀ r ∈ users, strictEq (emailOf r) (field userData "email") = false) :
    ∃ newUser : Fields,
      (signup sampleUsers upper now1 now2 st userData).outcome = .ok (some (.obj newUser)) ∧
      (signup sampleUsers upper now1 now2 st userData).state.user = .obj newUser ∧
      isAuthenticated (signup sampleUsers upper now1 now2 st userData).state = true ∧
      (signup sampleUsers upper now1 now2 st userData).state.users
        = some (.json (.arr (users ++ [.obj newUser]))) ∧
      field newUser "email" = field userData "email" ∧
      field newUser "name" = some (.str name) ∧
      ∃ record, (signup sampleUsers upper now1 now2 st userData).state.session
          = some (.json (.obj record)) ∧
        field record "email" = field userData "email" := by
  have hcheck : (truthy (users.find? (fun r => strictEq (emailOf r) (field userData "email"))) ||
      truthy ((findSeedByEmail sampleUsers (field userData "email")).map Json.obj)) = false := by
    rw [Bool.eq_false_iff]
    intro h
    rcases (signup_check_records sampleUsers _ users hrec).mp h with ⟨r, hr, hm⟩ | ⟨u, hu, hm⟩
    · rw [husers r hr] at hm
      exact Bool.false_ne_true hm
    · exact hseed u hu hm
  have hemail : field (newUserRecord upper now1 userData name) "email"
      = field userData "email" := by
    rw [field_newUserRecord _ _ _ _ _ (by decide) (by decide) (by decide)]
    cases field userData "email" <;> simp [field]
  have hnm : field (newUserRecord upper now1 userData name) "name" = some (.str name) := by
    rw [field_newUserRecord _ _ _ _ _ (by decide) (by decide) (by decide), hname]
  refine ⟨newUserRecord upper now1 userData name, ?_⟩
  simp only [signup, readUsers_of_cell hcell, findByEmail_records _ _ hrec, hcheck, hname]
  refine ⟨rfl, rfl, rfl, rfl, hemail, hnm, _, rfl, ?_⟩
  rw [field_sessionRecord, hemail]

/-- An instance of `signup_fresh_email`: one seed user, no persisted list yet. -/
theorem signup_fresh_email_witness :
    ∃ newUser : Fields,
      (signup [[("email", .str (utf16 "a@x.edu")), ("password", .str (utf16 "pw"))]] asciiUpper 1 2
          (mount none none)
          [("name", .str (utf16 "Ada Lovelace")), ("email", .str (utf16 "ada@x.edu"))]).outcome
        = .ok (some (.obj newUser)) ∧
      (signup [[("email", .str (utf16 "a@x.edu")), ("password", .str (utf16 "pw"))]] asciiUpper 1 2
          (mount none none)
          [("name", .str (utf16 "Ada Lovelace")), ("email", .str (utf16 "ada@x.edu"))]).state.user
        = .obj newUser ∧
      isAuthenticated (signup [[("email", .str (utf16 "a@x.edu")), ("password", .str (utf16 "pw"))]]
          asciiUpper 1 2 (mount none none)
          [("name", .str (utf16 "Ada Lovelace")), ("email", .str (utf16 "ada@x.edu"))]).state = true ∧
      (signup [[("email", .str (utf16 "a@x.edu")), ("password", .str (utf16 "pw"))]] asciiUpper 1 2
          (mount none none)
          [("name", .str (utf16 "Ada Lovelace")), ("email", .str (utf16 "ada@x.edu"))]).state.users
        = some (.json (.arr ([] ++ [.obj newUser]))) ∧
      field newUser "email"
        = field [("name", .str (utf16 "Ada Lovelace")), ("email", .str (utf16 "ada@x.edu"))] "email" ∧
      field newUser "name" = some (.str (utf16 "Ada Lovelace")) ∧
      ∃ record, (signup [[("email", .str (utf16 "a@x.edu")), ("password", .str (utf16 "pw"))]] asciiUpper 1 2
            (mount none none)
            [("name", .str (utf16 "Ada Lovelace")), ("email", .str (utf16 "ada@x.edu"))]).state.session
          = some (.json (.obj record)) ∧
        field record "email"
          = field [("name", .str (utf16 "Ada Lovelace")), ("email", .str (utf16 "ada@x.edu"))] "email" :=
  signup_fresh_email [[("email", .str (utf16 "a@x.edu")), ("password", .str (utf16 "pw"))]] asciiUpper 1 2
    (mount none none) [("name", .str (utf16 "Ada Lovelace")), ("email", .str (utf16 "ada@x.edu"))] []
    (utf16 "Ada Lovelace") (Or.inl ⟨rfl, rfl⟩) (by simp) rfl
    (by
      intro u hu
      simp at hu
      subst hu
      intro h
      exact Bool.false_ne_true h)
    (by simp)

/-! ## C4: the avatar -/

theorem splitOnSpace_eq_splitBy (cs : List Nat) : splitOnSpace cs = splitBy isSpace cs := by
  induction cs with
  | nil => rfl
  | cons c cs ih =>
    by_cases h : c = 32
    · simp [splitOnSpace, splitBy, isSpace, h, ih]
    · simp [splitOnSpace, splitBy, isSpace, h, ih]

theorem joinFirsts_eq_filterMap (pieces : List (List Nat)) :
    joinFirsts pieces = (pieces.filter (fun t => !t.isEmpty)).filterMap List.head? := by
  induction pieces with
  | nil => rfl
  | cons n ns ih =>
    cases n with
    | nil => simpa [joinFirsts] using ih
    | cons c t => simp [joinFirsts, ih]

/-- The string that the code upper-cases is the string of the first code units
of the tokens separated by the space character. -/
theorem avatarOf_eq (upper : Nat → List Nat) (name : JsString) :
    avatarOf upper name = ⟨toUpperCase upper (initialUnits isSpace name)⟩ := by
  simp only [avatarOf, initialUnits, tokensBy, splitOnSpace_eq_splitBy, joinFirsts_eq_filterMap]

theorem decodeUtf16_cons_of_not_high (u : Nat) (us : List Nat)
    (h : isHighSurrogate u = false) : decodeUtf16 (u :: us) = u :: decodeUtf16 us := by
  cases us with
  | nil => rfl
  | cons v rest => simp [decodeUtf16, h]

theorem decodeUtf16_of_no_high (us : List Nat) (h : ∀ u ∈ us, isHighSurrogate u = false) :
    decodeUtf16 us = us := by
  induction us with
  | nil => rfl
  | cons u us ih =>
    rw [decodeUtf16_cons_of_not_high u us (h u (List.mem_cons_self u us)),
      ih (fun v hv => h v (List.mem_cons_of_mem u hv))]

/-- Upper-casing a string without high surrogates is upper-casing each of its
code units. -/
theorem toUpperCase_of_no_high (upper : Nat → List Nat) (us : List Nat)
    (h : ∀ u ∈ us, isHighSurrogate u = false) :
    toUpperCase upper us = (us.map (fun u => ((upper u).map encodeUtf16).flatten)).flatten := by
  rw [toUpperCase, decodeUtf16_of_no_high us h]
  clear h
  induction us with
  | nil => rfl
  | cons u us ih =>
    simp only [List.map_cons, List.flatten_cons, List.map_append, List.flatten_append, ih]

theorem upperInitial_of_not_high (upper : Nat → List Nat) (u : Nat) (t : List Nat)
    (h : isHighSurrogate u = false) :
    upperInitial upper (u :: t) = ((upper u).map encodeUtf16).flatten := by
  simp only [upperInitial, decodeUtf16_cons_of_not_high u t h]

theorem flatten_upperInitial (upper : Nat → List Nat) (tokens : List (List Nat))
    (h : ∀ u ∈ tokens.filterMap List.head?, isHighSurrogate u = false) :
    (tokens.map (upperInitial upper)).flatten =
      ((tokens.filterMap List.head?).map
        (fun u => ((upper u).map encodeUtf16).flatten)).flatten := by
  induction tokens with
  | nil => rfl
  | cons t ts ih =>
    cases t with
    | nil =>
      have h' : ∀ u ∈ ts.filterMap List.head?, isHighSurrogate u = false := by
        intro u hu
        exact h u (by simpa using hu)
      simpa [upperInitial, decodeUtf16] using ih h'
    | cons c r =>
      have hc : isHighSurrogate c = false := h c (by simp)
      have h' : ∀ u ∈ ts.filterMap List.head?, isHighSurrogate u = false := by
        intro u hu
        exact h u (by simp [hu])
      simp [upperInitial_of_not_high upper c r hc, ih h']

/-- Where no token starts with a high surrogate, that is with a character
outside the Basic Multilingual Plane, the avatar of the code is the string of
initials over tokens separated by the space character. -/
theorem avatarOf_eq_initialsOf (upper : Nat → List Nat) (name : JsString)
    (h : ∀ u ∈ initialUnits isSpace name, isHighSurrogate u = false) :
    avatarOf upper name = initialsOf upper isSpace name := by
  rw [avatarOf_eq, toUpperCase_of_no_high upper _ h]
  simp only [initialsOf]
  rw [flatten_upperInitial upper _ h]
  rfl

theorem signup_ok_newUser {sampleUsers : List Fields} {upper : Nat → List Nat}
    {now1 now2 : Int} {st : State} {userData : Fields} {name : JsString} {newUser : Fields}
    (hname : field userData "name" = some (.str name))
    (hok : (signup sampleUsers upper now1 now2 st userData).outcome = .ok (some (.obj newUser))) :
    newUser = newUserRecord upper now1 userData name := by
  unfold signup at hok
  split at hok
  · simp at hok
  · split at hok
    · simp at hok
    · split at hok
      · simp at hok
      · rw [hname] at hok
        simp only [Except.ok.injEq, Option.some.injEq, Json.obj.injEq] at hok
        exact hok.symm
  · simp at hok

/-- C4 as stated fails for a tab. With the name `"Ada\tLovelace"` the code splits
on the space character only and finds one token, so the avatar of the user that
`signup` creates is `"A"`, where the initials over whitespace-separated tokens
are `"AL"`. -/
theorem signup_avatar_tab :
    (signup [] asciiUpper 0 0 (mount none none)
        [("name", .str (utf16 "Ada\tLovelace")), ("email", .str (utf16 "ada@x.edu"))]).state.user
      = .obj [("id", .num 0), ("name", .str (utf16 "Ada\tLovelace")),
          ("email", .str (utf16 "ada@x.edu")),
          ("avatar", .str (utf16 "A")), ("enrolledCourses", .arr []),
          ("studyPreferences", .obj [("times", .arr []), ("location", .arr []),
            ("style", .str (utf16 ""))])] ∧
    initialsOf asciiUpper isWhitespace (utf16 "Ada\tLovelace") = utf16 "AL" ∧
    avatarOf asciiUpper (utf16 "Ada\tLovelace")
      ≠ initialsOf asciiUpper isWhitespace (utf16 "Ada\tLovelace") := by
  refine ⟨rfl, rfl, ?_⟩
  decide

/-- C4, amended. For every name string and every upper-case table, the avatar
of the user created by a successful `signup` is the upper-casing of the string
made, in order, of the first UTF-16 code unit of each token of the name, the
tokens being separated by one or more space characters (U+0020) only: leading
and trailing spaces yield no token, and a tab or a newline does not separate
tokens. Where no token starts with a character outside the Basic Multilingual
Plane (no first code unit is a high surrogate), that is the concatenation, in
order, of the upper-cased first character of each token. -/
theorem signup_avatar (sampleUsers : List Fields) (upper : Nat → List Nat)
    (now1 now2 : Int) (st : State) (userData : Fields) (name : JsString) (newUser : Fields)
    (hname : field userData "name" = some (.str name))
    (hok : (signup sampleUsers upper now1 now2 st userData).outcome = .ok (some (.obj newUser))) :
    field newUser "avatar"
        = some (.str ⟨toUpperCase upper (initialUnits isSpace name)⟩) ∧
    ((∀ u ∈ initialUnits isSpace name, isHighSurrogate u = false) →
      field newUser "avatar" = some (.str (initialsOf upper isSpace name))) := by
  rw [signup_ok_newUser hname hok, field_newUserRecord_avatar]
  refine ⟨by rw [avatarOf_eq], fun h => by rw [avatarOf_eq_initialsOf upper name h]⟩

/-- An instance of `signup_avatar`: the name `"  ada  lovelace "`, with runs of
spaces and lower-case initials, gives the avatar `"AL"`. -/
theorem signup_avatar_witness :
    field [("name", .str (utf16 "  ada  lovelace ")), ("email", .str (utf16 "ada@x.edu"))] "name"
        = some (.str (utf16 "  ada  lovelace ")) ∧
    initialUnits isSpace (utf16 "  ada  lovelace ") = [97, 108] ∧
    initialsOf asciiUpper isSpace (utf16 "  ada  lovelace ") = utf16 "AL" ∧
    field (newUserRecord asciiUpper 7 [("name", .str (utf16 "  ada  lovelace ")),
        ("email", .str (utf16 "ada@x.edu"))] (utf16 "  ada  lovelace ")) "avatar"
      = some (.str (initialsOf asciiUpper isSpace (utf16 "  ada  lovelace "))) :=
  ⟨rfl, rfl, rfl,
    (signup_avatar [] asciiUpper 7 8 (mount none none)
      [("name", .str (utf16 "  ada  lovelace ")), ("email", .str (utf16 "ada@x.edu"))]
      (utf16 "  ada  lovelace ") _ rfl rfl).2 (by decide)⟩

/-- A name whose first token starts outside the Basic Multilingual Plane: for
`"😀 smile"` the first code unit of the first token is the high surrogate
`0xD83D`, which `n[0]` returns alone and upper-casing leaves as it is, so the
avatar is that unpaired surrogate followed by `S`. -/
theorem signup_avatar_surrogate :
    utf16 "😀 smile" = ⟨[0xD83D, 0xDE00, 32, 115, 109, 105, 108, 101]⟩ ∧
    field (newUserRecord asciiUpper 7 [("name", .str (utf16 "😀 smile")),
        ("email", .str (utf16 "s@x.edu"))] (utf16 "😀 smile")) "avatar"
      = some (.str ⟨[0xD83D, 83]⟩) ∧
    (signup [] asciiUpper 7 8 (mount none none)
        [("name", .str (utf16 "😀 smile")), ("email", .str (utf16 "s@x.edu"))]).state.user
      = .obj [("id", .num 7), ("name", .str (utf16 "😀 smile")),
          ("email", .str (utf16 "s@x.edu")),
          ("avatar", .str ⟨[0xD83D, 83]⟩), ("enrolledCourses", .arr []),
          ("studyPreferences", .obj [("times", .arr []), ("location", .arr []),
            ("style", .str (utf16 ""))])] :=
  ⟨rfl, rfl, rfl⟩

/-! ## C7: updateProfile -/

theorem field_isSome_of_mem {fs : Fields} {k : String} (h : k ∈ keys fs) :
    ∃ w, field fs k = some w := by
  induction fs with
  | nil => simp [keys] at h
  | cons p fs ih =>
    obtain ⟨a, b⟩ := p
    cases hf : field fs k with
    | some w => exact ⟨w, by simp [field, hf]⟩
    | none =>
      have hk : k ∉ keys fs := fun hm => by
        obtain ⟨w, hw⟩ := ih hm
        rw [hf] at hw
        exact Option.noConfusion hw
      have : a = k := by
        simp only [keys, List.map_cons, List.mem_cons] at h
        rcases h with h | h
        · exact h.symm
        · exact absurd h hk
      exact ⟨b, by simp [field, hf, this]⟩

/-- The merged user `{ ...user, ...updates }`, field by field. -/
theorem field_merged (u updates : Fields) (k : String) :
    field (spreadInto (spreadInto [] u) updates) k =
      match field updates k with
      | some w => some w
      | none => field u k := by
  have n0 : (keys ([] : Fields)).Nodup := by simp [keys]
  rw [field_spreadInto updates k (nodup_spreadInto u n0), field_spreadInto u k n0]
  cases field updates k with
  | some w => rfl
  | none => cases field u k <;> rfl

/-- What `findIndex` finds on a list of records, for a current user that is an
object: nothing when no record has the user's email, else the first record
that has it, together with what the write `users[index] = v` makes of the
list. -/
theorem findIndexByEmail_records (u : Fields) (xs : List Json) (hrec : ∀ r ∈ xs, IsRecord r) :
    (findIndexByEmail (.obj u) xs = .ok none ∧
        ∀ r ∈ xs, strictEq (emailOf r) (field u "email") = false) ∨
    ∃ i pre r post, findIndexByEmail (.obj u) xs = .ok (some i) ∧ xs = pre ++ r :: post ∧
      strictEq (emailOf r) (field u "email") = true ∧
      (∀ x ∈ pre, strictEq (emailOf x) (field u "email") = false) ∧
      ∀ v, xs.set i v = pre ++ v :: post := by
  induction xs with
  | nil => exact Or.inl ⟨rfl, by simp⟩
  | cons x xs ih =>
    have hx : IsRecord x := hrec x (List.mem_cons_self x xs)
    have hxs : ∀ r ∈ xs, IsRecord r := fun r hr => hrec r (List.mem_cons_of_mem x hr)
    cases x with
    | obj fs =>
      cases hc : strictEq (field fs "email") (field u "email") with
      | true =>
        exact Or.inr ⟨0, [], .obj fs, xs, by simp [findIndexByEmail, prop, hc], rfl,
          by simpa [emailOf] using hc, by simp, fun v => rfl⟩
      | false =>
        rcases ih hxs with ⟨h1, h2⟩ | ⟨i, pre, r, post, h1, h2, h3, h4, h5⟩
        · refine Or.inl ⟨by simp [findIndexByEmail, prop, hc, h1], ?_⟩
          intro r hr
          rcases List.mem_cons.mp hr with h | h
          · subst h
            simpa [emailOf] using hc
          · exact h2 r h
        · refine Or.inr ⟨i + 1, .obj fs :: pre, r, post,
            by simp [findIndexByEmail, prop, hc, h1], by simp [h2], h3, ?_, ?_⟩
          · intro y hy
            rcases List.mem_cons.mp hy with h | h
            · subst h
              simpa [emailOf] using hc
            · exact h4 y h
          · intro v
            simp [h5 v]
    | null => exact absurd hx (by simp [IsRecord])
    | bool b => exact absurd hx (by simp [IsRecord])
    | num n => exact absurd hx (by simp [IsRecord])
    | str y => exact absurd hx (by simp [IsRecord])
    | arr ys => exact absurd hx (by simp [IsRecord])

/-- The user that `updateProfile` leaves in the state, whatever
`classmatch_users` holds and whether or not the function throws afterwards. -/
theorem updateProfile_user (st : State) (updates : Option Json) :
    (updateProfile st updates).state.user
        = .obj (spreadInto (spreadInto [] (ownProps (some st.user))) (ownProps updates)) ∧
    (updateProfile st updates).state.session = st.session := by
  unfold updateProfile
  simp only
  split
  · exact ⟨rfl, rfl⟩
  · split <;> exact ⟨rfl, rfl⟩
  · exact ⟨rfl, rfl⟩

/-- C7. For every current user `u` and every updates object, after
`updateProfile(updates)` the current user is a merged user that has each field
named in `updates` at the value given there and every other field as in `u`,
and the session key is as before; this holds whatever `classmatch_users`
holds. With `classmatch_users` absent or a JSON list of user records,
`updateProfile` returns, and if the list has a record whose email equals
(`===`) `u.email`, the first such record is replaced by the merged user and
every other record stays, while if it has none, `classmatch_users` is not
written. -/
theorem updateProfile_spec (st : State) (u updates : Fields) (huser : st.user = .obj u) :
    ∃ merged : Fields,
      (updateProfile st (some (.obj updates))).state.user = .obj merged ∧
      (updateProfile st (some (.obj updates))).state.session = st.session ∧
      (∀ k, k ∈ keys updates → field merged k = field updates k) ∧
      (∀ k, k ∉ keys updates → field merged k = field u k) ∧
      ∀ users : List Json,
        ((st.users = none ∧ users = []) ∨ st.users = some (.json (.arr users))) →
        (∀ r ∈ users, IsRecord r) →
        (updateProfile st (some (.obj updates))).outcome = .ok none ∧
        ((∃ pre r post, users = pre ++ r :: post ∧
            strictEq (emailOf r) (field u "email") = true ∧
            (∀ x ∈ pre, strictEq (emailOf x) (field u "email") = false) ∧
            (updateProfile st (some (.obj updates))).state.users
              = some (.json (.arr (pre ++ .obj merged :: post)))) ∨
          ((∀ r ∈ users, strictEq (emailOf r) (field u "email") = false) ∧
            (updateProfile st (some (.obj updates))).state.users = st.users)) := by
  refine ⟨spreadInto (spreadInto [] u) updates, ?_, (updateProfile_user st _).2, ?_, ?_, ?_⟩
  · rw [(updateProfile_user st _).1, huser]
    rfl
  · intro k hk
    obtain ⟨w, hw⟩ := field_isSome_of_mem hk
    rw [field_merged, hw]
  · intro k hk
    rw [field_merged, field_eq_none_of_not_mem hk]
  · intro users hcell hrec
    rcases findIndexByEmail_records u users hrec with
      ⟨h1, h2⟩ | ⟨i, pre, r, post, h1, h2, h3, h4, h5⟩
    · simp only [updateProfile, huser, ownProps, readUsers_of_cell hcell, h1]
      exact ⟨trivial, Or.inr ⟨h2, trivial⟩⟩
    · simp only [updateProfile, huser, ownProps, readUsers_of_cell hcell, h1]
      refine ⟨trivial, Or.inl ⟨pre, r, post, h2, h3, h4, ?_⟩⟩
      simp only [h5]

/-- An instance of `updateProfile_spec`: the logged-in user of `signedUpState`,
second in `classmatch_users`, changes the name. -/
theorem updateProfile_spec_witness :
    signedUpState.user = .obj [("id", .num 2), ("name", .str (utf16 "Bo")), ("email", .str (utf16 "b@x.edu"))] ∧
    ∃ merged : Fields,
      (updateProfile signedUpState (some (.obj [("name", .str (utf16 "Bea"))]))).state.user
        = .obj merged ∧
      field merged "name" = some (.str (utf16 "Bea")) ∧
      field merged "email" = some (.str (utf16 "b@x.edu")) ∧
      (updateProfile signedUpState (some (.obj [("name", .str (utf16 "Bea"))]))).outcome = .ok none ∧
      ((∃ pre r post,
          [Json.obj [("id", .num 1), ("name", .str (utf16 "Cy")), ("email", .str (utf16 "c@x.edu"))],
            .obj [("id", .num 2), ("name", .str (utf16 "Bo")), ("email", .str (utf16 "b@x.edu"))]]
            = pre ++ r :: post ∧
          strictEq (emailOf r)
            (field [("id", .num 2), ("name", .str (utf16 "Bo")), ("email", .str (utf16 "b@x.edu"))] "email")
            = true ∧
          (∀ x ∈ pre, strictEq (emailOf x)
            (field [("id", .num 2), ("name", .str (utf16 "Bo")), ("email", .str (utf16 "b@x.edu"))] "email")
            = false) ∧
          (updateProfile signedUpState (some (.obj [("name", .str (utf16 "Bea"))]))).state.users
            = some (.json (.arr (pre ++ .obj merged :: post)))) ∨
        ((∀ r ∈ [Json.obj [("id", .num 1), ("name", .str (utf16 "Cy")), ("email", .str (utf16 "c@x.edu"))],
            .obj [("id", .num 2), ("name", .str (utf16 "Bo")), ("email", .str (utf16 "b@x.edu"))]],
            strictEq (emailOf r)
              (field [("id", .num 2), ("name", .str (utf16 "Bo")), ("email", .str (utf16 "b@x.edu"))] "email")
              = false) ∧
          (updateProfile signedUpState (some (.obj [("name", .str (utf16 "Bea"))]))).state.users
            = signedUpState.users)) := by
  obtain ⟨merged, h1, _, h3, h4, h5⟩ := updateProfile_spec signedUpState
    [("id", .num 2), ("name", .str (utf16 "Bo")), ("email", .str (utf16 "b@x.edu"))]
    [("name", .str (utf16 "Bea"))] rfl
  have h6 := h5
    [.obj [("id", .num 1), ("name", .str (utf16 "Cy")), ("email", .str (utf16 "c@x.edu"))],
      .obj [("id", .num 2), ("name", .str (utf16 "Bo")), ("email", .str (utf16 "b@x.edu"))]]
    (Or.inr rfl)
    (by
      intro r hr
      simp at hr
      rcases hr with h | h <;> subst h <;> trivial)
  exact ⟨rfl, merged, h1, h3 "name" (by simp [keys]),
    (h4 "email" (by simp [keys])).trans rfl, h6.1, h6.2⟩

/-- What `updateProfile` writes at that instance: the second record becomes the
merged user, the first stays. -/
theorem updateProfile_example :
    (updateProfile signedUpState (some (.obj [("name", .str (utf16 "Bea"))]))).state.users
      = some (.json (.arr [
          .obj [("id", .num 1), ("name", .str (utf16 "Cy")), ("email", .str (utf16 "c@x.edu"))],
          .obj [("id", .num 2), ("name", .str (utf16 "Bea")), ("email", .str (utf16 "b@x.edu"))]])) :=
  rfl

/-! ## C10: email uniqueness -/

theorem readUsers_of_persisted {cell : Option Stored} {users : List Json}
    (h : PersistedRecords cell users) : readUsers cell = .ok (.arr users) := by
  rcases h with ⟨h1 | h1, h2⟩ | h
  · subst h1
    subst h2
    rfl
  · subst h1
    subst h2
    rfl
  · subst h
    rfl

/-- The outcome of `signup` on a list of records: either nothing is written,
or the email passed the check and the new user is appended. -/
theorem signup_users (sampleUsers : List Fields) (upper : Nat → List Nat)
    (now1 now2 : Int) (st : State) (userData : Fields) (users : List Json)
    (hp : PersistedRecords st.users users) (hrec : ∀ r ∈ users, IsRecord r) :
    (signup sampleUsers upper now1 now2 st userData).state = st ∨
    ∃ name, field userData "name" = some (.str name) ∧
      (∀ r ∈ users, strictEq (emailOf r) (field userData "email") = false) ∧
      (∀ u ∈ sampleUsers, ¬ HasEmail (field userData "email") u) ∧
      (signup sampleUsers upper now1 now2 st userData).state.users
        = some (.json (.arr (users ++ [.obj (newUserRecord upper now1 userData name)]))) := by
  cases hcheck : (truthy (users.find? (fun r => strictEq (emailOf r) (field userData "email"))) ||
      truthy ((findSeedByEmail sampleUsers (field userData "email")).map Json.obj)) with
  | true =>
    left
    simp only [signup, readUsers_of_persisted hp, findByEmail_records _ _ hrec, hcheck, if_true]
  | false =>
    have hno := (signup_check_records sampleUsers (field userData "email") users hrec).not.mp
      (by simp [hcheck])
    have h1 : ∀ r ∈ users, strictEq (emailOf r) (field userData "email") = false := by
      intro r hr
      cases hs : strictEq (emailOf r) (field userData "email") with
      | false => rfl
      | true => exact absurd (Or.inl ⟨r, hr, hs⟩) hno
    have h2 : ∀ u ∈ sampleUsers, ¬ HasEmail (field userData "email") u :=
      fun u hu hm => hno (Or.inr ⟨u, hu, hm⟩)
    cases hname : field userData "name" with
    | none =>
      left
      simp only [signup, readUsers_of_persisted hp, findByEmail_records _ _ hrec, hcheck, hname]
      rfl
    | some v =>
      cases v with
      | str name =>
        right
        refine ⟨name, rfl, h1, h2, ?_⟩
        simp only [signup, readUsers_of_persisted hp, findByEmail_records _ _ hrec, hcheck, hname]
        rfl
      | null =>
        left
        simp only [signup, readUsers_of_persisted hp, findByEmail_records _ _ hrec, hcheck, hname]
        rfl
      | bool b =>
        left
        simp only [signup, readUsers_of_persisted hp, findByEmail_records _ _ hrec, hcheck, hname]
        rfl
      | num n =>
        left
        simp only [signup, readUsers_of_persisted hp, findByEmail_records _ _ hrec, hcheck, hname]
        rfl
      | arr xs =>
        left
        simp only [signup, readUsers_of_persisted hp, findByEmail_records _ _ hrec, hcheck, hname]
        rfl
      | obj fs =>
        left
        simp only [signup, readUsers_of_persisted hp, findByEmail_records _ _ hrec, hcheck, hname]
        rfl

theorem uniqueEmails_of_users_eq {sampleUsers : List Fields} {st st' : State}
    (h : UniqueEmails sampleUsers st) (e : st'.users = st.users) :
    UniqueEmails sampleUsers st' := by
  obtain ⟨users, hp, rest⟩ := h
  exact ⟨users, by rw [e]; exact hp, rest⟩

theorem uniqueEmails_signup (sampleUsers : List Fields) (upper : Nat → List Nat)
    (now1 now2 : Int) (st : State) (userData : Fields) (h : UniqueEmails sampleUsers st) :
    UniqueEmails sampleUsers (signup sampleUsers upper now1 now2 st userData).state := by
  obtain ⟨users, hp, hrec, hpw, hseed⟩ := h
  rcases signup_users sampleUsers upper now1 now2 st userData users hp hrec with
    hsame | ⟨name, _, h1, h2, hw⟩
  · rw [hsame]
    exact ⟨users, hp, hrec, hpw, hseed⟩
  · have hemail : emailOf (.obj (newUserRecord upper now1 userData name))
        = field userData "email" := by
      simp only [emailOf]
      rw [field_newUserRecord _ _ _ _ _ (by decide) (by decide) (by decide)]
      cases field userData "email" <;> simp [field]
    refine ⟨users ++ [.obj (newUserRecord upper now1 userData name)], Or.inr hw, ?_, ?_, ?_⟩
    · intro r hr
      rcases List.mem_append.mp hr with h | h
      · exact hrec r h
      · simp at h
        subst h
        trivial
    · rw [List.pairwise_append]
      refine ⟨hpw, List.pairwise_singleton _ _, ?_⟩
      intro a ha b hb
      simp at hb
      subst hb
      rw [hemail]
      exact h1 a ha
    · intro r hr u hu
      rcases List.mem_append.mp hr with h | h
      · exact hseed r h u hu
      · simp at h
        subst h
        rw [hemail, strictEq_symm]
        cases hs : strictEq (field u "email") (field userData "email") with
        | false => rfl
        | true => exact absurd hs (h2 u hu)

theorem login_users (sampleUsers : List Fields) (now : Int) (st : State)
    (email password : Option Json) :
    (login sampleUsers now st email password).state.users = st.users := by
  unfold login
  split <;> rfl

theorem updateProfile_null_users (st : State) (updates : Option Json) (users : List Json)
    (huser : st.user = .null) (hp : PersistedRecords st.users users)
    (hrec : ∀ r ∈ users, IsRecord r) :
    (updateProfile st updates).state.users = st.users := by
  cases users with
  | nil => simp only [updateProfile, readUsers_of_persisted hp, findIndexByEmail]
  | cons x xs =>
    have hx : IsRecord x := hrec x (List.mem_cons_self x xs)
    cases x with
    | obj fs => simp only [updateProfile, readUsers_of_persisted hp, findIndexByEmail, huser, prop]
    | null => exact absurd hx (by simp [IsRecord])
    | bool b => exact absurd hx (by simp [IsRecord])
    | num n => exact absurd hx (by simp [IsRecord])
    | str y => exact absurd hx (by simp [IsRecord])
    | arr ys => exact absurd hx (by simp [IsRecord])

theorem uniqueEmails_updateProfile (sampleUsers : List Fields) (st : State) (updates : Fields)
    (h : UniqueEmails sampleUsers st)
    (huser : st.user = .null ∨ ∃ u, st.user = .obj u)
    (hupd : "email" ∉ keys updates) :
    UniqueEmails sampleUsers (updateProfile st (some (.obj updates))).state := by
  obtain ⟨users, hp, hrec, hpw, hseed⟩ := h
  rcases huser with hnull | ⟨u, hu⟩
  · exact uniqueEmails_of_users_eq ⟨users, hp, hrec, hpw, hseed⟩
      (updateProfile_null_users st _ users hnull hp hrec)
  · rcases findIndexByEmail_records u users hrec with
      ⟨h1, _⟩ | ⟨i, pre, r, post, h1, h2, h3, _, h5⟩
    · refine uniqueEmails_of_users_eq ⟨users, hp, hrec, hpw, hseed⟩ ?_
      simp only [updateProfile, hu, ownProps, readUsers_of_persisted hp, h1]
    · have hm : emailOf (.obj (spreadInto (spreadInto [] u) updates)) = emailOf r := by
        simp only [emailOf]
        rw [field_merged, field_eq_none_of_not_mem hupd]
        exact (eq_of_strictEq h3).symm
      have hw : (updateProfile st (some (.obj updates))).state.users
          = some (.json (.arr (pre ++ .obj (spreadInto (spreadInto [] u) updates) :: post))) := by
        simp only [updateProfile, hu, ownProps, readUsers_of_persisted hp, h1, h5]
      subst h2
      refine ⟨_, Or.inr hw, ?_, ?_, ?_⟩
      · intro x hx
        rcases List.mem_append.mp hx with h | h
        · exact hrec x (List.mem_append_left _ h)
        · rcases List.mem_cons.mp h with h | h
          · subst h
            trivial
          · exact hrec x (List.mem_append_right _ (List.mem_cons_of_mem _ h))
      · have e : (pre ++ Json.obj (spreadInto (spreadInto [] u) updates) :: post).map emailOf
            = (pre ++ r :: post).map emailOf := by
          simp [hm]
        have hpw' := (List.pairwise_map (f := emailOf)
          (R := fun a b => strictEq a b = false)).mpr hpw
        rw [← e] at hpw'
        exact List.pairwise_map.mp hpw'
      · intro x hx v hv
        rcases List.mem_append.mp hx with h | h
        · exact hseed x (List.mem_append_left _ h) v hv
        · rcases List.mem_cons.mp h with h | h
          · subst h
            rw [hm]
            exact hseed r (by simp) v hv
          · exact hseed x (List.mem_append_right _ (List.mem_cons_of_mem _ h)) v hv

/-- C10 as stated fails for `updateProfile` with an `email` in the updates. In
`signedUpState` the persisted emails are unique and none is a seed email; after
the logged-in user sets the email to that of the seed user, the persisted
record carries a seed email. -/
theorem updateProfile_breaks_uniqueEmails :
    UniqueEmails seedExample signedUpState ∧
    (updateProfile signedUpState (some (.obj [("email", .str (utf16 "a@x.edu"))]))).state.users
      = some (.json (.arr [
          .obj [("id", .num 1), ("name", .str (utf16 "Cy")), ("email", .str (utf16 "c@x.edu"))],
          .obj [("id", .num 2), ("name", .str (utf16 "Bo")), ("email", .str (utf16 "a@x.edu"))]])) ∧
    ¬ UniqueEmails seedExample
      (updateProfile signedUpState (some (.obj [("email", .str (utf16 "a@x.edu"))]))).state := by
  refine ⟨⟨_, Or.inr rfl, ?_, ?_, ?_⟩, rfl, ?_⟩
  · intro r hr
    simp at hr
    rcases hr with h | h <;> subst h <;> trivial
  · refine List.pairwise_cons.mpr ⟨?_, List.pairwise_singleton _ _⟩
    intro b hb
    simp at hb
    subst hb
    rfl
  · intro r hr u hu
    simp [seedExample] at hu
    subst hu
    simp at hr
    rcases hr with h | h <;> subst h <;> rfl
  · rintro ⟨users, hp, _, _, hseed⟩
    rcases hp with ⟨h | h, _⟩ | h
    · exact Option.noConfusion h
    · have h' : some (Stored.json (.arr [
          .obj [("id", .num 1), ("name", .str (utf16 "Cy")), ("email", .str (utf16 "c@x.edu"))],
          .obj [("id", .num 2), ("name", .str (utf16 "Bo")), ("email", .str (utf16 "a@x.edu"))]]))
          = some Stored.empty := h
      simp at h'
    · have h' : some (Stored.json (.arr [
          .obj [("id", .num 1), ("name", .str (utf16 "Cy")), ("email", .str (utf16 "c@x.edu"))],
          .obj [("id", .num 2), ("name", .str (utf16 "Bo")), ("email", .str (utf16 "a@x.edu"))]]))
          = some (Stored.json (.arr users)) := h
      simp only [Option.some.injEq, Stored.json.injEq, Json.arr.injEq] at h'
      subst h'
      have := hseed (.obj [("id", .num 2), ("name", .str (utf16 "Bo")), ("email", .str (utf16 "a@x.edu"))])
        (by simp) [("email", .str (utf16 "a@x.edu")), ("password", .str (utf16 "pw")), ("name", .str (utf16 "Ann"))]
        (by simp [seedExample])
      exact absurd this (by decide)

/-- C10, amended. If `classmatch_users` holds a list of records whose emails
are pairwise distinct and distinct from every seed email, the same holds after
`login`, after `signup` and after `logout`, whether they return or throw, and
after `updateProfile` with an updates object that does not name the `email`
field (the current user being `null` or a user object). -/
theorem uniqueEmails_preserved (sampleUsers : List Fields) (upper : Nat → List Nat)
    (now now1 now2 : Int) (st : State) (email password : Option Json)
    (userData updates : Fields)
    (h : UniqueEmails sampleUsers st) :
    UniqueEmails sampleUsers (login sampleUsers now st email password).state ∧
    UniqueEmails sampleUsers (signup sampleUsers upper now1 now2 st userData).state ∧
    UniqueEmails sampleUsers (logout st).state ∧
    ((st.user = .null ∨ ∃ u, st.user = .obj u) → "email" ∉ keys updates →
      UniqueEmails sampleUsers (updateProfile st (some (.obj updates))).state) :=
  ⟨uniqueEmails_of_users_eq h (login_users sampleUsers now st email password),
    uniqueEmails_signup sampleUsers upper now1 now2 st userData h,
    uniqueEmails_of_users_eq h rfl,
    fun huser hupd => uniqueEmails_updateProfile sampleUsers st updates h huser hupd⟩

theorem uniqueEmails_signedUpState : UniqueEmails seedExample signedUpState := by
  refine ⟨_, Or.inr rfl, ?_, ?_, ?_⟩
  · intro r hr
    simp at hr
    rcases hr with h | h <;> subst h <;> trivial
  · refine List.pairwise_cons.mpr ⟨?_, List.pairwise_singleton _ _⟩
    intro b hb
    simp at hb
    subst hb
    rfl
  · intro r hr u hu
    simp [seedExample] at hu
    subst hu
    simp at hr
    rcases hr with h | h <;> subst h <;> rfl

/-- An instance of `uniqueEmails_preserved`: from `signedUpState`, a login, a
signup with a fresh email, a logout, and a change of name. -/
theorem uniqueEmails_preserved_witness :
    UniqueEmails seedExample signedUpState ∧
    UniqueEmails seedExample
      (login seedExample 9 signedUpState (some (.str (utf16 "a@x.edu"))) (some (.str (utf16 "pw")))).state ∧
    UniqueEmails seedExample
      (signup seedExample asciiUpper 9 9 signedUpState
        [("name", .str (utf16 "Di")), ("email", .str (utf16 "d@x.edu"))]).state ∧
    UniqueEmails seedExample (logout signedUpState).state ∧
    UniqueEmails seedExample
      (updateProfile signedUpState (some (.obj [("name", .str (utf16 "Bea"))]))).state :=
  have w := uniqueEmails_preserved seedExample asciiUpper 9 9 9 signedUpState
    (some (.str (utf16 "a@x.edu"))) (some (.str (utf16 "pw")))
    [("name", .str (utf16 "Di")), ("email", .str (utf16 "d@x.edu"))] [("name", .str (utf16 "Bea"))]
    uniqueEmails_signedUpState
  ⟨uniqueEmails_signedUpState, w.1, w.2.1, w.2.2.1,
    w.2.2.2 (Or.inr ⟨_, rfl⟩) (by decide)⟩

/-! ## C8: apiRequest on a non-success response -/

/-- C8 as stated fails when the error body does not parse. With a non-success
response whose body is not JSON text, `response.json()` rejects with a
`SyntaxError` and, there being no `try`, `apiRequest` fails with that error; it
does not fail with `Error("API request failed")`. -/
theorem apiRequest_unparsable_body :
    apiRequest "http://localhost:5000/api" none
        (fun _ _ => .ok { ok := false, body := none }) "/auth/me" []
      = .error .syntaxError ∧
    apiRequest "http://localhost:5000/api" none
        (fun _ _ => .ok { ok := false, body := none }) "/auth/me" []
      ≠ .error (.error (.str (utf16 "API request failed"))) :=
  ⟨rfl, fun h => nomatch h⟩

/-- C8, amended. For every response with `response.ok` false, `apiRequest`
fails and returns no value. When the body parses to a value other than `null`:
if its `message` is truthy the failure is an `Error` made from that message, and
if the body has no `message` or a falsy one (such as the empty string) it is
`Error("API request failed")`. When the body is not JSON text the failure is
the `SyntaxError` of `response.json()`, and when the body is `null` it is the
`TypeError` of reading `message`; neither is the generic fallback. -/
theorem apiRequest_not_ok (base : String) (token : Option String)
    (fetch : String → Fields → Except Thrown Response) (endpoint : String) (options : Fields)
    (response : Response)
    (hfetch : fetch (base ++ endpoint) (requestConfig token options) = .ok response)
    (hok : response.ok = false) :
    (∀ v, apiRequest base token fetch endpoint options ≠ .ok v) ∧
    (response.body = none →
      apiRequest base token fetch endpoint options = .error .syntaxError) ∧
    (response.body = some .null →
      apiRequest base token fetch endpoint options = .error .typeError) ∧
    (∀ body message, response.body = some body → prop body "message" = .ok message →
      (truthy message = true →
        ∃ m, message = some m ∧
          apiRequest base token fetch endpoint options = .error (.error m)) ∧
      (truthy message = false →
        apiRequest base token fetch endpoint options
          = .error (.error (.str (utf16 "API request failed"))))) := by
  have hres : apiRequest base token fetch endpoint options =
      match response.json with
      | .error e => .error e
      | .ok error =>
        match prop error "message" with
        | .error e => .error e
        | .ok message => .error (.error (orElse message (.str (utf16 "API request failed")))) := by
    simp only [apiRequest, hfetch, hok]
    rfl
  rw [hres]
  refine ⟨?_, ?_, ?_, ?_⟩
  · intro v
    cases hb : response.body with
    | none => simp [Response.json, hb]
    | some b =>
      simp only [Response.json, hb]
      cases prop b "message" <;> simp
  · intro hb
    simp [Response.json, hb]
  · intro hb
    simp [Response.json, hb, prop]
  · intro body message hb hm
    simp only [Response.json, hb, hm]
    constructor
    · intro ht
      cases message with
      | none => simp [truthy] at ht
      | some m => exact ⟨m, rfl, by simp [orElse, ht]⟩
    · intro ht
      cases message with
      | none => rfl
      | some m => simp [orElse, ht]

/-- An instance of `apiRequest_not_ok`: a 401 whose body is
`{"message": "Invalid token"}`. -/
theorem apiRequest_not_ok_witness :
    apiRequest "http://localhost:5000/api" (some "t0k")
        (fun _ _ => .ok { ok := false, body := some (.obj [("message", .str (utf16 "Invalid token"))]) })
        "/auth/me" []
      = .error (.error (.str (utf16 "Invalid token"))) := by
  have w := (apiRequest_not_ok "http://localhost:5000/api" (some "t0k")
    (fun _ _ => .ok { ok := false, body := some (.obj [("message", .str (utf16 "Invalid token"))]) })
    "/auth/me" [] { ok := false, body := some (.obj [("message", .str (utf16 "Invalid token"))]) }
    rfl rfl).2.2.2 (.obj [("message", .str (utf16 "Invalid token"))]) (some (.str (utf16 "Invalid token")))
    rfl rfl
  obtain ⟨m, hm, hres⟩ := w.1 rfl
  cases hm
  exact hres

/-! ## C9: the request configuration -/

/-- C9 as stated fails for options that carry their own `headers`. With the
token `"t0k"` stored: when `options.headers` sets `Authorization` itself, that
value is sent and not `"Bearer t0k"` (caller headers are spread after the
token); and when `options.headers` is `{"X-Trace": "1"}`, the final
`...options` replaces the merged `headers` object by `options.headers`, so the
configuration has neither `Authorization` nor `Content-Type`. -/
theorem requestConfig_own_headers :
    header (requestConfig (some "t0k")
        [("headers", .obj [("Authorization", .str (utf16 "Basic abc"))])]) "Authorization"
      = .ok (some (.str (utf16 "Basic abc"))) ∧
    requestConfig (some "t0k") [("method", .str (utf16 "POST")), ("headers", .obj [("X-Trace", .str (utf16 "1"))])]
      = [("headers", .obj [("X-Trace", .str (utf16 "1"))]), ("method", .str (utf16 "POST"))] ∧
    header (requestConfig (some "t0k")
        [("method", .str (utf16 "POST")), ("headers", .obj [("X-Trace", .str (utf16 "1"))])]) "Authorization"
      = .ok none ∧
    header (requestConfig (some "t0k")
        [("method", .str (utf16 "POST")), ("headers", .obj [("X-Trace", .str (utf16 "1"))])]) "Content-Type"
      = .ok none :=
  ⟨rfl, rfl, rfl, rfl⟩

/-- C9, amended. For every options object without a `headers` field, the
configuration that `apiRequest` passes to `fetch` has `Content-Type`
`application/json`, has `Authorization` equal to `Bearer <token>` when a
non-empty token is stored under `auth_token`, and has no `Authorization` header
when no token or the empty string is stored. -/
theorem requestConfig_default_headers (token : Option String) (options : Fields)
    (h : field options "headers" = none) :
    header (requestConfig token options) "Content-Type"
      = .ok (some (.str (utf16 "application/json"))) ∧
    (∀ t, token = some t → t ≠ "" →
      header (requestConfig token options) "Authorization"
        = .ok (some (.str (utf16 ("Bearer " ++ t))))) ∧
    (token = none ∨ token = some "" →
      header (requestConfig token options) "Authorization" = .ok none) := by
  have hcfg : ∀ H : Fields, field (spreadInto [("headers", .obj H)] options) "headers"
      = some (.obj H) := by
    intro H
    rw [field_spreadInto options "headers" (by simp [keys]), h]
    simp [field]
  have hheaders : field (requestConfig token options) "headers"
      = some (.obj (spreadInto [("Content-Type", .str (utf16 "application/json"))] (authHeader token))) := by
    simp only [requestConfig, h, ownProps]
    rw [hcfg]
    rfl
  simp only [header, hheaders, prop]
  refine ⟨?_, ?_, ?_⟩
  · cases token with
    | none => rfl
    | some t =>
      by_cases ht : t = ""
      · simp [authHeader, ht, field, spreadInto]
      · simp [authHeader, ht, field, setField, spreadInto]
  · intro t ht hne
    subst ht
    simp [authHeader, hne, field, setField, spreadInto]
  · rintro (ht | ht)
    · subst ht
      rfl
    · subst ht
      rfl

/-- An instance of `requestConfig_default_headers`: a `POST` with a body and a
stored token. -/
theorem requestConfig_default_headers_witness :
    requestConfig (some "t0k") [("method", .str (utf16 "POST")), ("body", .str (utf16 "[]"))]
      = [("headers", .obj [("Content-Type", .str (utf16 "application/json")),
            ("Authorization", .str (utf16 "Bearer t0k"))]),
          ("method", .str (utf16 "POST")), ("body", .str (utf16 "[]"))] ∧
    header (requestConfig (some "t0k") [("method", .str (utf16 "POST")), ("body", .str (utf16 "[]"))])
        "Content-Type"
      = .ok (some (.str (utf16 "application/json"))) ∧
    header (requestConfig (some "t0k") [("method", .str (utf16 "POST")), ("body", .str (utf16 "[]"))])
        "Authorization"
      = .ok (some (.str (utf16 ("Bearer " ++ "t0k")))) :=
  have w := requestConfig_default_headers (some "t0k")
    [("method", .str (utf16 "POST")), ("body", .str (utf16 "[]"))] rfl
  ⟨rfl, w.1, w.2.1 "t0k" rfl (by decide)⟩

end ClassMatch
